import Mathlib

/-!
Verification of the API rate-limiting service (src/index.js).

The decision engine (`checkRateLimit`), the timestamp pruner
(`pruneOldRequests`), the administrative handlers (`handleUnban`,
`handleReset`, `handleResetAll`) and the periodic cleanup sweep are
embedded as pure Lean functions over an association-list client store.
Timestamps are integers (epoch milliseconds); `Math.ceil` of a division
by a positive constant is embedded as integer ceiling division.
-/

namespace RateLimiter

/-! ## Configuration constants (src/index.js lines 14-18) -/

def WINDOW_MS : Int := 60 * 1000

def MAX_REQUESTS : Nat := 10

def BAN_THRESHOLD : Nat := 3

def BAN_DURATION_MS : Int := 5 * 60 * 1000

/-! ## Data model -/

/-- Per-client record, mirroring the `clientStore` schema comment
(src/index.js lines 22-30). -/
structure Record where
  requests : List Int
  violations : Nat
  banned : Bool
  bannedUntil : Int
deriving DecidableEq

/-- `initRecord` (src/index.js lines 59-66). -/
def initRecord : Record :=
  { requests := [], violations := 0, banned := false, bannedUntil := 0 }

/-- Integer ceiling division: for `0 < b` this is `Math.ceil(a / b)` of the
exact rational quotient. -/
def ceilDiv (a b : Int) : Int := -((-a).ediv b)

/-- `pruneOldRequests` (src/index.js lines 47-57): the loop pushes every
timestamp strictly above `cutoff` onto a fresh array, in order, and replaces
`requests` with the result.  The current time is passed explicitly. -/
def pruneOldRequests (record : Record) (current : Int) : Record :=
  let cutoff := current - WINDOW_MS
  let fresh := record.requests.foldl
    (fun acc t => if cutoff < t then acc ++ [t] else acc) []
  { record with requests := fresh }

/-- Result object of `checkRateLimit` (src/index.js lines 80-89), without the
human-readable `message` string.  The `violations` field is present only on
the 429 response (line 144). -/
structure Decision where
  allowed : Bool
  status : Nat
  remaining : Int
  resetIn : Int
  violations : Option Nat
deriving DecidableEq

/-- JavaScript `xs[0] || d` for a list of integer timestamps: `undefined`
(empty list) and `0` are falsy, every other integer is truthy
(src/index.js line 136). -/
def jsOrTime (l : List Int) (d : Int) : Int :=
  match l with
  | [] => d
  | t :: _ => if t = 0 then d else t

/-- The part of `checkRateLimit` after the ban check (src/index.js
lines 114-163): prune, count, violation/ban escalation, or admit. -/
def evalActive (record : Record) (current : Int) : Record × Decision :=
  let record2 := pruneOldRequests record current
  let count := record2.requests.length
  if MAX_REQUESTS ≤ count then
    let record3 := { record2 with violations := record2.violations + 1 }
    if BAN_THRESHOLD ≤ record3.violations then
      ({ record3 with banned := true, bannedUntil := current + BAN_DURATION_MS },
       { allowed := false, status := 403, remaining := 0,
         resetIn := ceilDiv BAN_DURATION_MS 1000, violations := none })
    else
      let oldestRequest := jsOrTime record3.requests current
      let resetIn := ceilDiv (oldestRequest + WINDOW_MS - current) 1000
      (record3,
       { allowed := false, status := 429, remaining := 0,
         resetIn := resetIn, violations := some record3.violations })
  else
    let record4 := { record2 with requests := record2.requests ++ [current] }
    let oldestAllowed := record4.requests.headD current
    let windowResetIn := ceilDiv (oldestAllowed + WINDOW_MS - current) 1000
    (record4,
     { allowed := true, status := 200,
       remaining := (MAX_REQUESTS : Int) - record4.requests.length,
       resetIn := windowResetIn, violations := none })

/-- Per-record core of `checkRateLimit` (src/index.js lines 98-163): the
active-ban check (lines 99-112) followed by `evalActive`. -/
def evalRecord (record : Record) (current : Int) : Record × Decision :=
  if record.banned then
    if current < record.bannedUntil then
      (record,
       { allowed := false, status := 403, remaining := 0,
         resetIn := ceilDiv (record.bannedUntil - current) 1000,
         violations := none })
    else
      evalActive initRecord current
  else
    evalActive record current

/-! ## The client store -/

/-- The `clientStore` object: an insertion-ordered association list of
client keys and records. -/
abbrev Store := List (String × Record)

/-- `clientStore[key]` lookup. -/
def findRecord (store : Store) (k : String) : Option Record :=
  match store with
  | [] => none
  | p :: rest => if p.1 = k then some p.2 else findRecord rest k

/-- Truthiness of `clientStore[key]` (a record object is always truthy). -/
def hasKey (store : Store) (k : String) : Bool :=
  (findRecord store k).isSome

/-- `clientStore[key] = r`: update in place when the key exists (JavaScript
objects keep insertion order), otherwise append. -/
def setRecord (store : Store) (k : String) (r : Record) : Store :=
  if hasKey store k then
    store.map (fun p => if p.1 = k then (k, r) else p)
  else
    store ++ [(k, r)]

/-- `checkRateLimit` (src/index.js lines 79-164): fetch or create the
record for the key, run the per-record engine, store the updated record. -/
def checkRateLimit (store : Store) (clientKey : String) (current : Int) :
    Store × Decision :=
  let record := (findRecord store clientKey).getD initRecord
  let res := evalRecord record current
  (setRecord store clientKey res.1, res.2)

/-! ## Administrative handlers -/

/-- Outcome of an administrative operation: HTTP 200 or 404. -/
inductive AdminResult where
  | ok
  | notFound
deriving DecidableEq

/-- `handleUnban` (src/index.js lines 204-210). -/
def handleUnban (store : Store) (k : String) : Store × AdminResult :=
  match findRecord store k with
  | none => (store, AdminResult.notFound)
  | some _ => (setRecord store k initRecord, AdminResult.ok)

/-- `handleReset` (src/index.js lines 212-218): `delete clientStore[key]`. -/
def handleReset (store : Store) (k : String) : Store × AdminResult :=
  match findRecord store k with
  | none => (store, AdminResult.notFound)
  | some _ => (store.filter (fun p => decide (p.1 ≠ k)), AdminResult.ok)

/-- `handleResetAll` (src/index.js lines 220-224): count the keys, replace
the store with a fresh empty object. -/
def handleResetAll (store : Store) : Store × Nat :=
  ([], (store.map Prod.fst).length)

/-! ## Periodic cleanup sweep -/

/-- The cleanup pass body (src/index.js lines 310-334): for each record in
order, delete it if its ban has expired, otherwise prune it and delete it if
it is idle; returns the surviving store and the number removed. -/
def sweepList (current : Int) : Store → Store × Nat
  | [] => ([], 0)
  | (k, record) :: rest =>
    let res := sweepList current rest
    if record.banned && decide (record.bannedUntil ≤ current) then
      (res.1, res.2 + 1)
    else
      let record2 := pruneOldRequests record current
      if record2.requests.length = 0 && record2.violations = 0 && !record2.banned then
        (res.1, res.2 + 1)
      else
        ((k, record2) :: res.1, res.2)

/-- A record carrying no useful state (spec §3): safe to evict. -/
def isIdle (r : Record) : Bool :=
  r.requests.isEmpty && r.violations = 0 && !r.banned

/-- The sweep's eviction criterion: expired ban, or idle after pruning. -/
def evictCond (current : Int) (r : Record) : Bool :=
  (r.banned && decide (r.bannedUntil ≤ current)) || isIdle (pruneOldRequests r current)

/-! ## Basic lemmas about pruning -/

/-- The push-loop of `pruneOldRequests` computes a filter. -/
lemma foldl_push_eq_filter (cutoff : Int) (l acc : List Int) :
    l.foldl (fun acc t => if cutoff < t then acc ++ [t] else acc) acc
      = acc ++ l.filter (fun t => decide (cutoff < t)) := by
  induction l generalizing acc with
  | nil => simp
  | cons a l ih =>
    by_cases h : cutoff < a
    · simp [List.foldl_cons, List.filter_cons, h, ih]
    · simp [List.foldl_cons, List.filter_cons, h, ih]

lemma prune_requests (r : Record) (current : Int) :
    (pruneOldRequests r current).requests
      = r.requests.filter (fun t => decide (current - WINDOW_MS < t)) := by
  simp [pruneOldRequests, foldl_push_eq_filter]

lemma prune_violations (r : Record) (current : Int) :
    (pruneOldRequests r current).violations = r.violations := rfl

lemma prune_banned (r : Record) (current : Int) :
    (pruneOldRequests r current).banned = r.banned := rfl

lemma prune_bannedUntil (r : Record) (current : Int) :
    (pruneOldRequests r current).bannedUntil = r.bannedUntil := rfl

/-! ## Branch lemmas for the decision engine -/

lemma evalActive_allowed_eq (r : Record) (t : Int)
    (h : (pruneOldRequests r t).requests.length < MAX_REQUESTS) :
    evalActive r t =
      ({ pruneOldRequests r t with
          requests := (pruneOldRequests r t).requests ++ [t] },
       { allowed := true, status := 200,
         remaining := (MAX_REQUESTS : Int) - ((pruneOldRequests r t).requests ++ [t]).length,
         resetIn := ceilDiv (((pruneOldRequests r t).requests ++ [t]).headD t + WINDOW_MS - t) 1000,
         violations := none }) := by
  simp only [evalActive]
  rw [if_neg (by omega)]

lemma evalActive_limited_eq (r : Record) (t : Int)
    (h : MAX_REQUESTS ≤ (pruneOldRequests r t).requests.length)
    (h2 : (pruneOldRequests r t).violations + 1 < BAN_THRESHOLD) :
    evalActive r t =
      ({ pruneOldRequests r t with
          violations := (pruneOldRequests r t).violations + 1 },
       { allowed := false, status := 429, remaining := 0,
         resetIn := ceilDiv (jsOrTime (pruneOldRequests r t).requests t + WINDOW_MS - t) 1000,
         violations := some ((pruneOldRequests r t).violations + 1) }) := by
  simp only [evalActive]
  rw [if_pos h, if_neg (by omega)]

lemma evalActive_ban_eq (r : Record) (t : Int)
    (h : MAX_REQUESTS ≤ (pruneOldRequests r t).requests.length)
    (h2 : BAN_THRESHOLD ≤ (pruneOldRequests r t).violations + 1) :
    evalActive r t =
      ({ pruneOldRequests r t with
          violations := (pruneOldRequests r t).violations + 1,
          banned := true, bannedUntil := t + BAN_DURATION_MS },
       { allowed := false, status := 403, remaining := 0,
         resetIn := ceilDiv BAN_DURATION_MS 1000, violations := none }) := by
  simp only [evalActive]
  rw [if_pos h, if_pos h2]

lemma evalRecord_banned_denied_eq (r : Record) (t : Int)
    (hb : r.banned = true) (hlt : t < r.bannedUntil) :
    evalRecord r t =
      (r, { allowed := false, status := 403, remaining := 0,
            resetIn := ceilDiv (r.bannedUntil - t) 1000, violations := none }) := by
  simp only [evalRecord, hb, if_true]
  rw [if_pos hlt]

lemma evalRecord_banned_expired_eq (r : Record) (t : Int)
    (hb : r.banned = true) (hge : r.bannedUntil ≤ t) :
    evalRecord r t = evalActive initRecord t := by
  simp only [evalRecord, hb, if_true]
  rw [if_neg (by omega)]

lemma evalRecord_notBanned_eq (r : Record) (t : Int) (hb : r.banned = false) :
    evalRecord r t = evalActive r t := by
  simp only [evalRecord, hb, if_false, Bool.false_eq_true]

/-! ## Store lookup lemmas -/

lemma findRecord_nil (k : String) : findRecord [] k = none := rfl

lemma findRecord_cons (p : String × Record) (rest : Store) (k : String) :
    findRecord (p :: rest) k = if p.1 = k then some p.2 else findRecord rest k := rfl

lemma findRecord_append (s₁ s₂ : Store) (k : String) :
    findRecord (s₁ ++ s₂) k =
      match findRecord s₁ k with
      | some r => some r
      | none => findRecord s₂ k := by
  induction s₁ with
  | nil => simp [findRecord]
  | cons p rest ih =>
    by_cases h : p.1 = k
    · simp [findRecord_cons, h]
    · simp [findRecord_cons, h, ih]

lemma findRecord_setRecord_self (s : Store) (k : String) (r : Record) :
    findRecord (setRecord s k r) k = some r := by
  unfold setRecord
  by_cases hk : hasKey s k = true
  · rw [if_pos hk]
    unfold hasKey at hk
    induction s with
    | nil => simp [findRecord] at hk
    | cons p rest ih =>
      by_cases h : p.1 = k
      · simp [findRecord_cons, h]
      · rw [List.map_cons, if_neg h, findRecord_cons, if_neg h]
        apply ih
        rwa [findRecord_cons, if_neg h] at hk
  · rw [if_neg hk, findRecord_append]
    have hn : findRecord s k = none := by
      unfold hasKey at hk
      cases hfind : findRecord s k with
      | none => rfl
      | some r' => rw [hfind] at hk; simp at hk
    rw [hn]
    simp [findRecord]

lemma findRecord_map_update (s : Store) (k k' : String) (r : Record)
    (h : k' ≠ k) :
    findRecord (s.map (fun p => if p.1 = k then (k, r) else p)) k'
      = findRecord s k' := by
  induction s with
  | nil => simp [findRecord]
  | cons p rest ih =>
    by_cases hp : p.1 = k
    · rw [List.map_cons, if_pos hp, findRecord_cons, findRecord_cons]
      rw [if_neg (fun hc => h hc.symm)]
      rw [if_neg (by rw [hp]; exact fun hc => h hc.symm)]
      exact ih
    · rw [List.map_cons, if_neg hp, findRecord_cons, findRecord_cons]
      by_cases hpk' : p.1 = k'
      · simp [hpk']
      · rw [if_neg hpk', if_neg hpk']
        exact ih

lemma findRecord_setRecord_ne (s : Store) (k k' : String) (r : Record)
    (h : k' ≠ k) :
    findRecord (setRecord s k r) k' = findRecord s k' := by
  unfold setRecord
  by_cases hk : hasKey s k = true
  · rw [if_pos hk]
    exact findRecord_map_update s k k' r h
  · rw [if_neg hk, findRecord_append]
    cases hfind : findRecord s k' with
    | some r' => simp
    | none =>
      rw [findRecord_cons, if_neg (fun hc => h hc.symm), findRecord_nil]

lemma checkRateLimit_eq (s : Store) (k : String) (t : Int) :
    checkRateLimit s k t =
      (setRecord s k (evalRecord ((findRecord s k).getD initRecord) t).1,
       (evalRecord ((findRecord s k).getD initRecord) t).2) := rfl

lemma findRecord_eraseKey_self (s : Store) (k : String) :
    findRecord (s.filter (fun p => decide (p.1 ≠ k))) k = none := by
  induction s with
  | nil => rfl
  | cons p rest ih =>
    by_cases h : p.1 = k
    · simp only [List.filter_cons, h]
      simpa using ih
    · simp only [List.filter_cons]
      rw [if_pos (by simpa using h), findRecord_cons, if_neg h]
      exact ih

lemma findRecord_eraseKey_ne (s : Store) (k k' : String) (h : k' ≠ k) :
    findRecord (s.filter (fun p => decide (p.1 ≠ k))) k' = findRecord s k' := by
  induction s with
  | nil => rfl
  | cons p rest ih =>
    by_cases hp : p.1 = k
    · rw [List.filter_cons, if_neg (by simp [hp]), ih, findRecord_cons,
        if_neg (by rw [hp]; exact fun hc => h hc.symm)]
    · rw [List.filter_cons, if_pos (by simpa using hp), findRecord_cons,
        findRecord_cons]
      by_cases hpk' : p.1 = k'
      · rw [if_pos hpk', if_pos hpk']
      · rw [if_neg hpk', if_neg hpk', ih]

lemma jsOrTime_eq_headD (l : List Int) (d : Int) (h : ∀ x ∈ l, x ≠ 0) :
    jsOrTime l d = l.headD d := by
  cases l with
  | nil => rfl
  | cons a l => simp [jsOrTime, h a (List.mem_cons_self a l)]

lemma prune_init (now : Int) : (pruneOldRequests initRecord now).requests = [] := rfl

lemma prune_mem_ne_zero (r : Record) (now x : Int) (hw : WINDOW_MS < now)
    (hx : x ∈ (pruneOldRequests r now).requests) : x ≠ 0 := by
  rw [prune_requests] at hx
  have h2 := (List.mem_filter.mp hx).2
  simp only [decide_eq_true_eq] at h2
  omega

/-! ## Claim theorems -/

/-- Claim C5: for every record and time `now`, the pruning pass removes
exactly those timestamps `t` in `requests` with `t ≤ now - WINDOW`, preserves
the relative order of the surviving timestamps (the result is a sublist of
the original sequence), and changes no field other than `requests`. -/
theorem claim_prune_contract (r : Record) (now : Int) :
    (pruneOldRequests r now).requests
        = r.requests.filter (fun t => decide (¬ t ≤ now - WINDOW_MS)) ∧
    (pruneOldRequests r now).requests.Sublist r.requests ∧
    (∀ t : Int, t ∈ (pruneOldRequests r now).requests ↔
        t ∈ r.requests ∧ ¬ t ≤ now - WINDOW_MS) ∧
    (pruneOldRequests r now).violations = r.violations ∧
    (pruneOldRequests r now).banned = r.banned ∧
    (pruneOldRequests r now).bannedUntil = r.bannedUntil := by
  refine ⟨?_, ?_, ?_, rfl, rfl, rfl⟩
  · rw [prune_requests]
    apply List.filter_congr
    intro x _
    exact decide_eq_decide.mpr not_le.symm
  · rw [prune_requests]
    exact List.filter_sublist _
  · intro t
    rw [prune_requests]
    simp [List.mem_filter, not_le]

/-- Claim C8: `resetAll` always succeeds, empties the store, and returns the
number of records present; a second consecutive call returns `0`. -/
theorem claim_reset_all (store : Store) :
    (handleResetAll store).2 = store.length ∧
    (handleResetAll store).1 = [] ∧
    (∀ k, findRecord (handleResetAll store).1 k = none) ∧
    (handleResetAll (handleResetAll store).1).2 = 0 := by
  exact ⟨by simp [handleResetAll], rfl, fun k => rfl, rfl⟩

/-- Claim C2: on a banned record, if `now < bannedUntil` the engine returns
Denied-Banned with `remaining = 0` and `resetIn = ceil((bannedUntil - now)/1000)`
and leaves the record unchanged; if `now ≥ bannedUntil` (including exact
equality) the record is reinitialized and processed as a fresh client, so the
call is Allowed with `remaining = MAX_REQUESTS - 1`. -/
theorem claim_ban_check (r : Record) (now : Int) (hb : r.banned = true) :
    (now < r.bannedUntil →
      evalRecord r now =
        (r, { allowed := false, status := 403, remaining := 0,
              resetIn := ceilDiv (r.bannedUntil - now) 1000, violations := none })) ∧
    (r.bannedUntil ≤ now →
      evalRecord r now = evalRecord initRecord now ∧
      (evalRecord r now).2.allowed = true ∧
      (evalRecord r now).2.remaining = (MAX_REQUESTS : Int) - 1) := by
  constructor
  · intro hlt
    exact evalRecord_banned_denied_eq r now hb hlt
  · intro hge
    have h1 : evalRecord r now = evalActive initRecord now :=
      evalRecord_banned_expired_eq r now hb hge
    have h2 : evalRecord initRecord now = evalActive initRecord now :=
      evalRecord_notBanned_eq initRecord now rfl
    refine ⟨h1.trans h2.symm, ?_, ?_⟩
    · rw [h1]
      exact rfl
    · rw [h1]
      exact rfl

/-- Witness for claim C2 at a concrete banned record and concrete times on
both sides of the ban expiry. -/
theorem claim_ban_check_witness :
    evalRecord ⟨[70000], 2, true, 400000⟩ 399000 =
      (⟨[70000], 2, true, 400000⟩,
       { allowed := false, status := 403, remaining := 0,
         resetIn := 1, violations := none }) ∧
    (evalRecord ⟨[70000], 2, true, 400000⟩ 400000).2.allowed = true ∧
    (evalRecord ⟨[70000], 2, true, 400000⟩ 400000).2.remaining = 9 := by
  have h1 := (claim_ban_check ⟨[70000], 2, true, 400000⟩ 399000 rfl).1 (by decide)
  have h2 := (claim_ban_check ⟨[70000], 2, true, 400000⟩ 400000 rfl).2 (by decide)
  refine ⟨?_, h2.2.1, ?_⟩
  · rw [h1]
    decide
  · rw [h2.2.2]
    decide

/-- Claim C10: a denied `evaluate` call (Denied-Banned or Denied-RateLimited)
never appends a timestamp: the resulting `requests` sequence is a sublist of
the record's previous one (it only shrinks, by pruning or reinitialization). -/
theorem claim_denied_frame (r : Record) (now : Int)
    (hd : (evalRecord r now).2.allowed = false) :
    (evalRecord r now).1.requests.Sublist r.requests := by
  by_cases hb : r.banned = true
  · by_cases hlt : now < r.bannedUntil
    · rw [evalRecord_banned_denied_eq r now hb hlt]
    · rw [evalRecord_banned_expired_eq r now hb (by omega)] at hd
      rw [evalActive_allowed_eq initRecord now (by rw [prune_init]; decide)] at hd
      simp at hd
  · have hb' : r.banned = false := by simpa using hb
    rw [evalRecord_notBanned_eq r now hb'] at hd ⊢
    by_cases hc : MAX_REQUESTS ≤ (pruneOldRequests r now).requests.length
    · by_cases ht : BAN_THRESHOLD ≤ (pruneOldRequests r now).violations + 1
      · rw [evalActive_ban_eq r now hc ht]
        simp [prune_requests]
      · rw [evalActive_limited_eq r now hc (by omega)]
        simp [prune_requests]
    · rw [evalActive_allowed_eq r now (by omega)] at hd
      simp at hd

/-- Witness for claim C10: a concrete denied call leaves `requests` a sublist
of the original. -/
theorem claim_denied_frame_witness :
    (evalRecord ⟨[99100, 99200, 99300, 99400, 99500, 99600, 99700, 99800, 99900, 100000],
        0, false, 0⟩ 100000).1.requests.Sublist
      [99100, 99200, 99300, 99400, 99500, 99600, 99700, 99800, 99900, 100000] := by
  exact claim_denied_frame
    ⟨[99100, 99200, 99300, 99400, 99500, 99600, 99700, 99800, 99900, 100000], 0, false, 0⟩
    100000 (by decide)

/-- Claim C3: on a non-banned record whose pruned window already holds at
least `MAX_REQUESTS` timestamps (the check is `>=`, so exactly `MAX_REQUESTS`
is exhausted), `violations` is incremented; if the incremented count reaches
`BAN_THRESHOLD` the record is banned until `now + BAN_DURATION` and the call
returns Denied-Banned with `remaining = 0`, `resetIn = ceil(BAN_DURATION/1000)`;
otherwise it returns Denied-RateLimited with `remaining = 0`, the current
violation count and `resetIn = ceil((oldest + WINDOW - now)/1000)`, the oldest
timestamp defaulting to `now` on an empty sequence. -/
theorem claim_quota_exhausted (r : Record) (now : Int)
    (hb : r.banned = false) (hw : WINDOW_MS < now)
    (hcount : MAX_REQUESTS ≤ (pruneOldRequests r now).requests.length) :
    (evalRecord r now).1.violations = r.violations + 1 ∧
    (BAN_THRESHOLD ≤ r.violations + 1 →
      evalRecord r now =
        ({ pruneOldRequests r now with
            violations := r.violations + 1,
            banned := true, bannedUntil := now + BAN_DURATION_MS },
         { allowed := false, status := 403, remaining := 0,
           resetIn := ceilDiv BAN_DURATION_MS 1000, violations := none })) ∧
    (r.violations + 1 < BAN_THRESHOLD →
      evalRecord r now =
        ({ pruneOldRequests r now with violations := r.violations + 1 },
         { allowed := false, status := 429, remaining := 0,
           resetIn := ceilDiv
             ((pruneOldRequests r now).requests.headD now + WINDOW_MS - now) 1000,
           violations := some (r.violations + 1) })) := by
  have hpv : (pruneOldRequests r now).violations = r.violations := rfl
  have hjs : jsOrTime (pruneOldRequests r now).requests now
      = (pruneOldRequests r now).requests.headD now :=
    jsOrTime_eq_headD _ _ (fun x hx => prune_mem_ne_zero r now x hw hx)
  rw [evalRecord_notBanned_eq r now hb]
  refine ⟨?_, ?_, ?_⟩
  · by_cases ht : BAN_THRESHOLD ≤ r.violations + 1
    · rw [evalActive_ban_eq r now hcount (by rw [hpv]; omega)]
      exact rfl
    · rw [evalActive_limited_eq r now hcount (by rw [hpv]; omega)]
      exact rfl
  · intro ht
    rw [evalActive_ban_eq r now hcount (by rw [hpv]; omega)]
    exact rfl
  · intro ht
    rw [evalActive_limited_eq r now hcount (by rw [hpv]; omega), hjs]
    exact rfl

/-- Witness for claim C3: a record with exactly `MAX_REQUESTS` in-window
timestamps is exhausted, giving a 429 with `violations = 1` at zero prior
violations and a 403 ban at two prior violations. -/
theorem claim_quota_exhausted_witness :
    (evalRecord ⟨[99100, 99200, 99300, 99400, 99500, 99600, 99700, 99800, 99900, 100000],
        0, false, 0⟩ 100000).2
      = { allowed := false, status := 429, remaining := 0,
          resetIn := 60, violations := some 1 } ∧
    (evalRecord ⟨[99100, 99200, 99300, 99400, 99500, 99600, 99700, 99800, 99900, 100000],
        2, false, 0⟩ 100000).2
      = { allowed := false, status := 403, remaining := 0,
          resetIn := 300, violations := none } := by
  have h1 := (claim_quota_exhausted
    ⟨[99100, 99200, 99300, 99400, 99500, 99600, 99700, 99800, 99900, 100000],
      0, false, 0⟩ 100000 rfl (by decide) (by decide)).2.2 (by decide)
  have h2 := (claim_quota_exhausted
    ⟨[99100, 99200, 99300, 99400, 99500, 99600, 99700, 99800, 99900, 100000],
      2, false, 0⟩ 100000 rfl (by decide) (by decide)).2.1 (by decide)
  rw [h1, h2]
  exact ⟨by decide, by decide⟩

/-- The call times of Scenario A: ten calls inside one second starting at
`t0 = 100000`, then an eleventh call one second after `t0 + 1s`. -/
def scenarioATimes : List Int :=
  [100000, 100100, 100200, 100300, 100400, 100500, 100600, 100700, 100800,
   100900, 102000]

/-- Run the decision engine over a list of call times for one client,
collecting the decisions in order. -/
def runDecisions (r : Record) : List Int → List Decision
  | [] => []
  | t :: rest =>
    let res := evalRecord r t
    res.2 :: runDecisions res.1 rest

/-- Claim C4: when, after the ban check and pruning, the window holds fewer
than `MAX_REQUESTS` timestamps, `now` is appended and the call is Allowed
with `remaining = MAX_REQUESTS - count(requests)` counted after the append
and `resetIn` computed from the now non-empty oldest timestamp; concretely
(Scenario A), ten calls within one second are all Allowed with `remaining`
decreasing 9 to 0 and an eleventh call a second later is RateLimited with
`violations = 1`. -/
theorem claim_allowed_path :
    (∀ (r : Record) (now : Int), r.banned = false →
      (pruneOldRequests r now).requests.length < MAX_REQUESTS →
      evalRecord r now =
        ({ pruneOldRequests r now with
            requests := (pruneOldRequests r now).requests ++ [now] },
         { allowed := true, status := 200,
           remaining := (MAX_REQUESTS : Int) -
             ((pruneOldRequests r now).requests ++ [now]).length,
           resetIn := ceilDiv
             (((pruneOldRequests r now).requests ++ [now]).headD now
               + WINDOW_MS - now) 1000,
           violations := none })) ∧
    (runDecisions initRecord scenarioATimes).map
        (fun d => (d.allowed, d.status, d.remaining, d.violations)) =
      [(true, 200, 9, none), (true, 200, 8, none), (true, 200, 7, none),
       (true, 200, 6, none), (true, 200, 5, none), (true, 200, 4, none),
       (true, 200, 3, none), (true, 200, 2, none), (true, 200, 1, none),
       (true, 200, 0, none), (false, 429, 0, some 1)] := by
  constructor
  · intro r now hb hc
    rw [evalRecord_notBanned_eq r now hb, evalActive_allowed_eq r now hc]
  · decide

/-- Witness for claim C4's universally quantified part at a concrete
non-banned record with quota available. -/
theorem claim_allowed_path_witness :
    evalRecord ⟨[99500], 0, false, 0⟩ 100000 =
      (⟨[99500, 100000], 0, false, 0⟩,
       { allowed := true, status := 200, remaining := 8,
         resetIn := 60, violations := none }) := by
  have h := claim_allowed_path.1 ⟨[99500], 0, false, 0⟩ 100000 rfl (by decide)
  rw [h]
  decide

/-- Claim C7: `unban(key)` and `reset(key)` succeed exactly when the key is
present; then `unban` reinitializes the record (so the next `evaluate` for
that key decides as for a brand-new client) and `reset` deletes it;
on an absent key both signal NotFound and leave the store unchanged; keys
other than the target are untouched. -/
theorem claim_admin_unban_reset (store : Store) (k : String) :
    ((handleUnban store k).2 = AdminResult.ok ↔ findRecord store k ≠ none) ∧
    ((handleReset store k).2 = AdminResult.ok ↔ findRecord store k ≠ none) ∧
    (findRecord store k ≠ none →
      findRecord (handleUnban store k).1 k = some initRecord ∧
      findRecord (handleReset store k).1 k = none ∧
      (∀ now, (checkRateLimit (handleUnban store k).1 k now).2
            = (checkRateLimit [] k now).2)) ∧
    (findRecord store k = none →
      (handleUnban store k).1 = store ∧
      (handleUnban store k).2 = AdminResult.notFound ∧
      (handleReset store k).1 = store ∧
      (handleReset store k).2 = AdminResult.notFound) ∧
    (∀ k', k' ≠ k →
      findRecord (handleUnban store k).1 k' = findRecord store k' ∧
      findRecord (handleReset store k).1 k' = findRecord store k') := by
  cases hf : findRecord store k with
  | none =>
    have hu : handleUnban store k = (store, AdminResult.notFound) := by
      simp [handleUnban, hf]
    have hr : handleReset store k = (store, AdminResult.notFound) := by
      simp [handleReset, hf]
    rw [hu, hr]
    exact ⟨by simp [hf], by simp [hf], fun hc => absurd rfl hc,
      fun _ => ⟨rfl, rfl, rfl, rfl⟩, fun k' _ => ⟨rfl, rfl⟩⟩
  | some r0 =>
    have hu : handleUnban store k = (setRecord store k initRecord, AdminResult.ok) := by
      simp [handleUnban, hf]
    have hr : handleReset store k
        = (store.filter (fun p => decide (p.1 ≠ k)), AdminResult.ok) := by
      simp [handleReset, hf]
    rw [hu, hr]
    refine ⟨by simp [hf], by simp [hf],
      fun _ => ⟨findRecord_setRecord_self store k initRecord,
                findRecord_eraseKey_self store k, fun now => ?_⟩,
      fun hc => absurd hc (by simp),
      fun k' hk' => ⟨findRecord_setRecord_ne store k k' initRecord hk',
                     findRecord_eraseKey_ne store k k' hk'⟩⟩
    rw [checkRateLimit_eq, checkRateLimit_eq,
      findRecord_setRecord_self store k initRecord, findRecord_nil]
    exact rfl

/-- Witness for claim C7 on a one-record store, exercising both the present
and the absent key paths. -/
theorem claim_admin_unban_reset_witness :
    findRecord (handleUnban [("a", ⟨[5], 1, true, 99⟩)] "a").1 "a"
        = some initRecord ∧
    findRecord (handleReset [("a", ⟨[5], 1, true, 99⟩)] "a").1 "a" = none ∧
    (handleUnban ([] : Store) "a").2 = AdminResult.notFound ∧
    (handleReset ([] : Store) "a").2 = AdminResult.notFound := by
  have h1 := (claim_admin_unban_reset [("a", ⟨[5], 1, true, 99⟩)] "a").2.2.1
    (by decide)
  have h2 := (claim_admin_unban_reset ([] : Store) "a").2.2.2.1 rfl
  exact ⟨h1.1, h1.2.1, h2.2.1, h2.2.2.2⟩

/-! ## Sweep lemmas -/

lemma isEmpty_eq_decide_length (l : List Int) : l.isEmpty = decide (l.length = 0) := by
  cases l <;> simp

lemma evictCond_eq (current : Int) (r : Record) :
    evictCond current r =
      ((r.banned && decide (r.bannedUntil ≤ current)) ||
        (decide ((pruneOldRequests r current).requests.length = 0) &&
         decide ((pruneOldRequests r current).violations = 0) &&
         !(pruneOldRequests r current).banned)) := by
  simp [evictCond, isIdle, isEmpty_eq_decide_length]

lemma sweepList_cons_evict1 (current : Int) (k : String) (r : Record)
    (rest : Store) (hb1 : (r.banned && decide (r.bannedUntil ≤ current)) = true) :
    sweepList current ((k, r) :: rest)
      = ((sweepList current rest).1, (sweepList current rest).2 + 1) := by
  simp only [sweepList]
  rw [if_pos hb1]

lemma sweepList_cons_evict2 (current : Int) (k : String) (r : Record)
    (rest : Store)
    (hb1 : ¬ (r.banned && decide (r.bannedUntil ≤ current)) = true)
    (hb2 : (decide ((pruneOldRequests r current).requests.length = 0) &&
        decide ((pruneOldRequests r current).violations = 0) &&
        !(pruneOldRequests r current).banned) = true) :
    sweepList current ((k, r) :: rest)
      = ((sweepList current rest).1, (sweepList current rest).2 + 1) := by
  simp only [sweepList]
  rw [if_neg hb1, if_pos hb2]

lemma sweepList_cons_keep (current : Int) (k : String) (r : Record)
    (rest : Store)
    (hb1 : ¬ (r.banned && decide (r.bannedUntil ≤ current)) = true)
    (hb2 : ¬ (decide ((pruneOldRequests r current).requests.length = 0) &&
        decide ((pruneOldRequests r current).violations = 0) &&
        !(pruneOldRequests r current).banned) = true) :
    sweepList current ((k, r) :: rest)
      = ((k, pruneOldRequests r current) :: (sweepList current rest).1,
         (sweepList current rest).2) := by
  simp only [sweepList]
  rw [if_neg hb1, if_neg hb2]

lemma sweepList_characterization (current : Int) (s : Store) :
    (sweepList current s).1 = s.filterMap (fun p =>
        if evictCond current p.2 then none
        else some (p.1, pruneOldRequests p.2 current)) ∧
    (sweepList current s).2 = s.countP (fun p => evictCond current p.2) := by
  induction s with
  | nil => exact ⟨rfl, rfl⟩
  | cons p rest ih =>
    obtain ⟨k, r⟩ := p
    by_cases hb1 : (r.banned && decide (r.bannedUntil ≤ current)) = true
    · have he : evictCond current r = true := by
        rw [evictCond_eq, hb1, Bool.true_or]
      rw [sweepList_cons_evict1 current k r rest hb1]
      constructor
      · simp [List.filterMap_cons, he, ih.1]
      · simp [List.countP_cons, he, ih.2]
    · by_cases hb2 : (decide ((pruneOldRequests r current).requests.length = 0) &&
          decide ((pruneOldRequests r current).violations = 0) &&
          !(pruneOldRequests r current).banned) = true
      · have he : evictCond current r = true := by
          rw [evictCond_eq, hb2, Bool.or_true]
        rw [sweepList_cons_evict2 current k r rest hb1 hb2]
        constructor
        · simp [List.filterMap_cons, he, ih.1]
        · simp [List.countP_cons, he, ih.2]
      · have he : evictCond current r = false := by
          rw [evictCond_eq]
          simp only [Bool.or_eq_false_iff]
          exact ⟨by simpa using hb1, by simpa using hb2⟩
        rw [sweepList_cons_keep current k r rest hb1 hb2]
        constructor
        · simp [List.filterMap_cons, he, ih.1]
        · simp [List.countP_cons, he, ih.2]

lemma findRecord_eq_none_of_not_mem (s : Store) (k : String)
    (h : k ∉ s.map Prod.fst) : findRecord s k = none := by
  induction s with
  | nil => rfl
  | cons p rest ih =>
    rw [List.map_cons, List.mem_cons] at h
    push_neg at h
    rw [findRecord_cons, if_neg (fun hc => h.1 hc.symm)]
    exact ih h.2

lemma findRecord_sweep_of_none (current : Int) (s : Store) (k : String)
    (hf : findRecord s k = none) :
    findRecord (sweepList current s).1 k = none := by
  induction s with
  | nil => rfl
  | cons p rest ih =>
    obtain ⟨k0, r0⟩ := p
    rw [findRecord_cons] at hf
    by_cases hk : k0 = k
    · rw [if_pos hk] at hf
      exact absurd hf (by simp)
    · rw [if_neg hk] at hf
      by_cases hb1 : (r0.banned && decide (r0.bannedUntil ≤ current)) = true
      · rw [sweepList_cons_evict1 current k0 r0 rest hb1]
        exact ih hf
      · by_cases hb2 : (decide ((pruneOldRequests r0 current).requests.length = 0) &&
            decide ((pruneOldRequests r0 current).violations = 0) &&
            !(pruneOldRequests r0 current).banned) = true
        · rw [sweepList_cons_evict2 current k0 r0 rest hb1 hb2]
          exact ih hf
        · rw [sweepList_cons_keep current k0 r0 rest hb1 hb2, findRecord_cons,
            if_neg hk]
          exact ih hf

lemma findRecord_sweep (current : Int) (s : Store)
    (hnd : (s.map Prod.fst).Nodup) (k : String) (r : Record)
    (hf : findRecord s k = some r) :
    findRecord (sweepList current s).1 k
      = if evictCond current r = true then none
        else some (pruneOldRequests r current) := by
  induction s with
  | nil => exact absurd hf (by simp [findRecord])
  | cons p rest ih =>
    obtain ⟨k0, r0⟩ := p
    rw [List.map_cons, List.nodup_cons] at hnd
    rw [findRecord_cons] at hf
    have hsw := sweepList_characterization current ((k0, r0) :: rest)
    by_cases hk : k0 = k
    · rw [if_pos hk] at hf
      have hr : r0 = r := by injection hf
      subst hr
      subst hk
      have hnone : findRecord rest k0 = none :=
        findRecord_eq_none_of_not_mem rest k0 hnd.1
      rw [hsw.1, List.filterMap_cons]
      by_cases he : evictCond current r0 = true
      · simp only [he, if_true, if_pos he]
        rw [← (sweepList_characterization current rest).1]
        exact findRecord_sweep_of_none current rest k0 hnone
      · simp only [if_neg he]
        rw [findRecord_cons]
        simp
    · rw [if_neg hk] at hf
      rw [hsw.1, List.filterMap_cons]
      by_cases he : evictCond current r0 = true
      · simp only [he, if_true]
        rw [← (sweepList_characterization current rest).1]
        exact ih hnd.2 hf
      · simp only [if_neg he]
        rw [findRecord_cons, if_neg hk,
          ← (sweepList_characterization current rest).1]
        exact ih hnd.2 hf

/-- Claim C6: one sweep pass deletes exactly those records that are banned
with an expired ban (`now ≥ bannedUntil`) or that are idle after pruning
(empty requests, zero violations, not banned); every other record is
retained (with its timestamps pruned), and the pass returns the number of
evicted records.  On a store with one idle and one active record, only the
idle one is removed. -/
theorem claim_sweep (s : Store) (now : Int) (hnd : (s.map Prod.fst).Nodup) :
    (sweepList now s).2 = s.countP (fun p => evictCond now p.2) ∧
    (sweepList now s).1 = s.filterMap (fun p =>
        if evictCond now p.2 then none
        else some (p.1, pruneOldRequests p.2 now)) ∧
    (∀ k r, findRecord s k = some r →
      (evictCond now r = true → findRecord (sweepList now s).1 k = none) ∧
      (evictCond now r = false →
        findRecord (sweepList now s).1 k = some (pruneOldRequests r now))) ∧
    sweepList 100000 [("idle", ⟨[], 0, false, 0⟩), ("active", ⟨[95000], 0, false, 0⟩)]
      = ([("active", ⟨[95000], 0, false, 0⟩)], 1) := by
  refine ⟨(sweepList_characterization now s).2,
    (sweepList_characterization now s).1, fun k r hf => ⟨?_, ?_⟩, by decide⟩
  · intro he
    rw [findRecord_sweep now s hnd k r hf, if_pos he]
  · intro he
    rw [findRecord_sweep now s hnd k r hf, if_neg (by rw [he]; simp)]

/-- Witness for claim C6 on the Scenario D store: the idle record is gone
and the active record survives pruned. -/
theorem claim_sweep_witness :
    findRecord (sweepList 100000 [("idle", ⟨[], 0, false, 0⟩),
        ("active", ⟨[95000], 0, false, 0⟩)]).1 "idle" = none ∧
    findRecord (sweepList 100000 [("idle", ⟨[], 0, false, 0⟩),
        ("active", ⟨[95000], 0, false, 0⟩)]).1 "active"
      = some (pruneOldRequests ⟨[95000], 0, false, 0⟩ 100000) := by
  have h := claim_sweep
    [("idle", ⟨[], 0, false, 0⟩), ("active", ⟨[95000], 0, false, 0⟩)]
    100000 (by decide)
  exact ⟨(h.2.2.1 "idle" ⟨[], 0, false, 0⟩ (by decide)).1 (by decide),
         (h.2.2.1 "active" ⟨[95000], 0, false, 0⟩ (by decide)).2 (by decide)⟩

/-! ## Reachable-state invariant -/

/-- A record that, while unbanned, has not reached the ban threshold. -/
def GoodRecord (r : Record) : Prop :=
  r.banned = false → r.violations < BAN_THRESHOLD

/-- Every record in the store is `GoodRecord`. -/
def GoodStore (s : Store) : Prop := ∀ p ∈ s, GoodRecord p.2

/-- Store states reachable from the empty store through the operations of
the service. -/
inductive Reachable : Store → Prop where
  | init : Reachable []
  | eval (s : Store) (k : String) (now : Int) :
      Reachable s → Reachable (checkRateLimit s k now).1
  | unban (s : Store) (k : String) :
      Reachable s → Reachable (handleUnban s k).1
  | reset (s : Store) (k : String) :
      Reachable s → Reachable (handleReset s k).1
  | resetAll (s : Store) : Reachable s → Reachable (handleResetAll s).1
  | sweep (s : Store) (now : Int) :
      Reachable s → Reachable (sweepList now s).1

lemma goodRecord_init : GoodRecord initRecord := fun _ => by decide

lemma goodRecord_prune (r : Record) (t : Int) (hg : GoodRecord r) :
    GoodRecord (pruneOldRequests r t) := fun hb => hg hb

lemma goodRecord_evalActive (r : Record) (t : Int) (hg : GoodRecord r)
    (hb : r.banned = false) : GoodRecord (evalActive r t).1 := by
  by_cases hc : MAX_REQUESTS ≤ (pruneOldRequests r t).requests.length
  · by_cases ht : BAN_THRESHOLD ≤ (pruneOldRequests r t).violations + 1
    · rw [evalActive_ban_eq r t hc ht]
      intro hbf
      simp at hbf
    · rw [evalActive_limited_eq r t hc (by omega)]
      intro _
      show (pruneOldRequests r t).violations + 1 < BAN_THRESHOLD
      omega
  · rw [evalActive_allowed_eq r t (by omega)]
    intro _
    exact hg hb

lemma goodRecord_evalRecord (r : Record) (t : Int) (hg : GoodRecord r) :
    GoodRecord (evalRecord r t).1 := by
  by_cases hb : r.banned = true
  · by_cases hlt : t < r.bannedUntil
    · rw [evalRecord_banned_denied_eq r t hb hlt]
      intro hbf
      rw [hb] at hbf
      exact absurd hbf (by simp)
    · rw [evalRecord_banned_expired_eq r t hb (by omega)]
      exact goodRecord_evalActive initRecord t goodRecord_init rfl
  · have hb' : r.banned = false := by simpa using hb
    rw [evalRecord_notBanned_eq r t hb']
    exact goodRecord_evalActive r t hg hb'

lemma goodStore_setRecord (s : Store) (k : String) (r : Record)
    (hs : GoodStore s) (hr : GoodRecord r) : GoodStore (setRecord s k r) := by
  intro p hp
  unfold setRecord at hp
  by_cases hk : hasKey s k = true
  · rw [if_pos hk] at hp
    obtain ⟨q, hq, hqe⟩ := List.mem_map.mp hp
    by_cases hq1 : q.1 = k
    · rw [if_pos hq1] at hqe
      rw [← hqe]
      exact hr
    · rw [if_neg hq1] at hqe
      rw [← hqe]
      exact hs q hq
  · rw [if_neg hk] at hp
    rcases List.mem_append.mp hp with h | h
    · exact hs p h
    · rw [List.mem_singleton.mp h]
      exact hr

lemma goodStore_findRecord (s : Store) (k : String) (r : Record)
    (hs : GoodStore s) (hf : findRecord s k = some r) : GoodRecord r := by
  induction s with
  | nil => exact absurd hf (by simp [findRecord])
  | cons p rest ih =>
    rw [findRecord_cons] at hf
    by_cases hk : p.1 = k
    · rw [if_pos hk] at hf
      have hpr : p.2 = r := by injection hf
      rw [← hpr]
      exact hs p (List.mem_cons_self p rest)
    · rw [if_neg hk] at hf
      exact ih (fun q hq => hs q (List.mem_cons_of_mem p hq)) hf

lemma reachable_goodStore (s : Store) (hs : Reachable s) : GoodStore s := by
  induction hs with
  | init => intro p hp; simp at hp
  | eval s k now _ ih =>
    rw [checkRateLimit_eq]
    apply goodStore_setRecord s k _ ih
    apply goodRecord_evalRecord
    cases hf : findRecord s k with
    | none => exact goodRecord_init
    | some r0 => exact goodStore_findRecord s k r0 ih hf
  | unban s k _ ih =>
    cases hf : findRecord s k with
    | none =>
      have hu : (handleUnban s k).1 = s := by simp [handleUnban, hf]
      rw [hu]
      exact ih
    | some r0 =>
      have hu : (handleUnban s k).1 = setRecord s k initRecord := by
        simp [handleUnban, hf]
      rw [hu]
      exact goodStore_setRecord s k initRecord ih goodRecord_init
  | reset s k _ ih =>
    cases hf : findRecord s k with
    | none =>
      have hu : (handleReset s k).1 = s := by simp [handleReset, hf]
      rw [hu]
      exact ih
    | some r0 =>
      have hu : (handleReset s k).1 = s.filter (fun p => decide (p.1 ≠ k)) := by
        simp [handleReset, hf]
      rw [hu]
      intro p hp
      exact ih p (List.mem_of_mem_filter hp)
  | resetAll s _ _ =>
    intro p hp
    simp [handleResetAll] at hp
  | sweep s now _ ih =>
    rw [(sweepList_characterization now s).1]
    intro p hp
    obtain ⟨q, hq, hqe⟩ := List.mem_filterMap.mp hp
    by_cases he : evictCond now q.2 = true
    · rw [if_pos he] at hqe
      exact absurd hqe (by simp)
    · rw [if_neg he] at hqe
      have : p.2 = pruneOldRequests q.2 now := by
        rw [← Option.some_inj.mp hqe]
      rw [this]
      exact goodRecord_prune q.2 now (ih q hq)

/-- Claim C9: in every store state reachable from the empty store via
`evaluate`, `unban`, `reset`, `resetAll` and the sweep, a record with
`banned = false` has `violations < BAN_THRESHOLD`: the violation counter
reaches the threshold only in the step that sets the ban. -/
theorem claim_violations_invariant (s : Store) (hs : Reachable s)
    (k : String) (r : Record) (hf : findRecord s k = some r)
    (hb : r.banned = false) : r.violations < BAN_THRESHOLD :=
  goodStore_findRecord s k r (reachable_goodStore s hs) hf hb

/-- Witness for claim C9 on a reachable one-client store. -/
theorem claim_violations_invariant_witness :
    (⟨[100000], 0, false, 0⟩ : Record).violations < BAN_THRESHOLD := by
  exact claim_violations_invariant (checkRateLimit [] "a" 100000).1
    (Reachable.eval [] "a" 100000 Reachable.init) "a"
    ⟨[100000], 0, false, 0⟩ (by decide) rfl

/-! ## The sliding-window invariant -/

/-- `t` lies in the half-open window `(T, T + WINDOW_MS]`: two timestamps
are counted by one sliding window exactly when they are less than
`WINDOW_MS` apart, matching the pruner's strict cutoff. -/
def inWindow (T t : Int) : Bool := decide (T < t) && decide (t ≤ T + WINDOW_MS)

/-- Every rolling window of length `WINDOW_MS` holds at most `MAX_REQUESTS`
of the timestamps of `A`. -/
def WindowBound (A : List Int) : Prop :=
  ∀ T : Int, A.countP (inWindow T) ≤ MAX_REQUESTS

/-- Relation between one client's history `A` of allowed timestamps (in call
order), a time bound `τ` for the calls seen so far, and the client's stored
record: a banned record's ban outlasts every allowed timestamp by the full
ban duration, and an unbanned record's `requests` is exactly the history
above some cutoff that is at least a full window old. -/
def RecInv (A : List Int) (τ : Int) (r : Record) : Prop :=
  (∀ t ∈ A, t ≤ τ) ∧
  (r.banned = true → ∀ t ∈ A, t + BAN_DURATION_MS ≤ r.bannedUntil) ∧
  (r.banned = false → ∃ c, c ≤ τ - WINDOW_MS ∧
      r.requests = A.filter (fun x => decide (c < x)))

/-- The timestamps at which client `k` receives an Allowed decision along a
trace of `evaluate` calls starting from store `s`. -/
def allowedTimes (k : String) : Store → List (String × Int) → List Int
  | _, [] => []
  | s, c :: rest =>
    let res := checkRateLimit s c.1 c.2
    (if c.1 = k ∧ res.2.allowed = true then [c.2] else [])
      ++ allowedTimes k res.1 rest

lemma allowedTimes_nil (k : String) (s : Store) : allowedTimes k s [] = [] := rfl

lemma allowedTimes_cons (k k' : String) (t : Int) (s : Store)
    (rest : List (String × Int)) :
    allowedTimes k s ((k', t) :: rest)
      = (if k' = k ∧ (checkRateLimit s k' t).2.allowed = true then [t] else [])
        ++ allowedTimes k (checkRateLimit s k' t).1 rest := rfl

lemma recInv_mono (A : List Int) (τ t : Int) (r : Record) (hτ : τ ≤ t)
    (h : RecInv A τ r) : RecInv A t r := by
  obtain ⟨h1, h2, h3⟩ := h
  refine ⟨fun a ha => le_trans (h1 a ha) hτ, h2, fun hb => ?_⟩
  obtain ⟨c, hc, hr⟩ := h3 hb
  exact ⟨c, by omega, hr⟩

lemma window_pos : (0 : Int) < WINDOW_MS := by decide

lemma window_le_ban_duration : WINDOW_MS ≤ BAN_DURATION_MS := by decide

/-- After pruning at time `t`, an unbanned record whose `requests` is the
history above cutoff `c ≤ t - WINDOW_MS` holds exactly the history inside
the window ending at `t`. -/
lemma pruned_eq_history (r : Record) (A : List Int) (t c : Int)
    (hc : c ≤ t - WINDOW_MS)
    (hr : r.requests = A.filter (fun x => decide (c < x))) :
    (pruneOldRequests r t).requests
      = A.filter (fun x => decide (t - WINDOW_MS < x)) := by
  rw [prune_requests, hr, List.filter_filter]
  apply List.filter_congr
  intro x _
  by_cases h : t - WINDOW_MS < x
  · simp [h, show c < x by omega]
  · simp [h]

lemma evalActive_step_denied (r : Record) (A : List Int) (t c : Int)
    (hboundA : ∀ a ∈ A, a ≤ t) (hb : r.banned = false)
    (hc : c ≤ t - WINDOW_MS)
    (hr : r.requests = A.filter (fun x => decide (c < x)))
    (hd : (evalActive r t).2.allowed = false) :
    RecInv A t (evalActive r t).1 := by
  have hpr := pruned_eq_history r A t c hc hr
  by_cases hcount : MAX_REQUESTS ≤ (pruneOldRequests r t).requests.length
  · by_cases hthr : BAN_THRESHOLD ≤ (pruneOldRequests r t).violations + 1
    · rw [evalActive_ban_eq r t hcount hthr]
      refine ⟨hboundA, fun _ a ha => ?_, fun habs => ?_⟩
      · show a + BAN_DURATION_MS ≤ t + BAN_DURATION_MS
        have := hboundA a ha
        omega
      · simp at habs
    · rw [evalActive_limited_eq r t hcount (by omega)]
      refine ⟨hboundA, fun habs _ _ => ?_, fun _ => ?_⟩
      · simp [prune_banned, hb] at habs
      · exact ⟨t - WINDOW_MS, le_refl _, hpr⟩
  · rw [evalActive_allowed_eq r t (by omega)] at hd
    simp at hd

lemma evalActive_step_allowed (r : Record) (A : List Int) (t c : Int)
    (hboundA : ∀ a ∈ A, a ≤ t) (hb : r.banned = false)
    (hc : c ≤ t - WINDOW_MS)
    (hr : r.requests = A.filter (fun x => decide (c < x)))
    (hA : WindowBound A)
    (ha : (evalActive r t).2.allowed = true) :
    RecInv (A ++ [t]) t (evalActive r t).1 ∧ WindowBound (A ++ [t]) := by
  have hpr := pruned_eq_history r A t c hc hr
  by_cases hcount : MAX_REQUESTS ≤ (pruneOldRequests r t).requests.length
  · exfalso
    by_cases hthr : BAN_THRESHOLD ≤ (pruneOldRequests r t).violations + 1
    · rw [evalActive_ban_eq r t hcount hthr] at ha
      simp at ha
    · rw [evalActive_limited_eq r t hcount (by omega)] at ha
      simp at ha
  · have hlen : (pruneOldRequests r t).requests.length < MAX_REQUESTS := by omega
    have hcnt : A.countP (fun x => decide (t - WINDOW_MS < x)) < MAX_REQUESTS := by
      rw [List.countP_eq_length_filter, ← hpr]
      exact hlen
    constructor
    · rw [evalActive_allowed_eq r t hlen]
      refine ⟨?_, fun habs _ _ => ?_, fun _ => ?_⟩
      · intro a ha'
        rcases List.mem_append.mp ha' with h | h
        · exact hboundA a h
        · rw [List.mem_singleton.mp h]
      · simp [prune_banned, hb] at habs
      · refine ⟨t - WINDOW_MS, le_refl _, ?_⟩
        show (pruneOldRequests r t).requests ++ [t]
            = (A ++ [t]).filter (fun x => decide (t - WINDOW_MS < x))
        rw [List.filter_append, hpr]
        have htw : t - WINDOW_MS < t := by
          have := window_pos
          omega
        simp [htw]
    · intro T
      rw [List.countP_append]
      by_cases hw : inWindow T t = true
      · have hw' : T < t ∧ t ≤ T + WINDOW_MS := by
          simpa [inWindow] using hw
        have hmono : A.countP (inWindow T)
            ≤ A.countP (fun x => decide (t - WINDOW_MS < x)) := by
          apply List.countP_mono_left
          intro x _ hx
          have hx' : T < x ∧ x ≤ T + WINDOW_MS := by
            simpa [inWindow] using hx
          simp
          omega
        have hone : ([t] : List Int).countP (inWindow T) ≤ 1 := by
          simp [List.countP_cons, hw]
        omega
      · have hone : ([t] : List Int).countP (inWindow T) = 0 := by
          simp [List.countP_cons, hw]
        rw [hone]
        have := hA T
        omega

lemma evalRecord_step_denied (r : Record) (A : List Int) (τ t : Int)
    (hτ : τ ≤ t) (hinv : RecInv A τ r)
    (hd : (evalRecord r t).2.allowed = false) :
    RecInv A t (evalRecord r t).1 := by
  obtain ⟨h1, h2, h3⟩ := hinv
  have hbound : ∀ a ∈ A, a ≤ t := fun a ha => le_trans (h1 a ha) hτ
  by_cases hb : r.banned = true
  · by_cases hlt : t < r.bannedUntil
    · rw [evalRecord_banned_denied_eq r t hb hlt]
      exact recInv_mono A τ t r hτ ⟨h1, h2, h3⟩
    · rw [evalRecord_banned_expired_eq r t hb (by omega)] at hd
      rw [evalActive_allowed_eq initRecord t (by rw [prune_init]; decide)] at hd
      simp at hd
  · have hb' : r.banned = false := by simpa using hb
    obtain ⟨c, hc, hr⟩ := h3 hb'
    rw [evalRecord_notBanned_eq r t hb'] at hd ⊢
    exact evalActive_step_denied r A t c hbound hb' (by omega) hr hd

lemma evalRecord_step_allowed (r : Record) (A : List Int) (τ t : Int)
    (hτ : τ ≤ t) (hinv : RecInv A τ r) (hA : WindowBound A)
    (ha : (evalRecord r t).2.allowed = true) :
    RecInv (A ++ [t]) t (evalRecord r t).1 ∧ WindowBound (A ++ [t]) := by
  obtain ⟨h1, h2, h3⟩ := hinv
  have hbound : ∀ a ∈ A, a ≤ t := fun a ha' => le_trans (h1 a ha') hτ
  by_cases hb : r.banned = true
  · by_cases hlt : t < r.bannedUntil
    · rw [evalRecord_banned_denied_eq r t hb hlt] at ha
      simp at ha
    · have hexp : r.bannedUntil ≤ t := by omega
      rw [evalRecord_banned_expired_eq r t hb hexp] at ha ⊢
      have hnil : A.filter (fun x => decide (t - WINDOW_MS < x)) = [] := by
        rw [List.filter_eq_nil_iff]
        intro a ha'
        have hban := h2 hb a ha'
        have hDW := window_le_ban_duration
        simp
        omega
      exact evalActive_step_allowed initRecord A t (t - WINDOW_MS) hbound rfl
        (le_refl _) hnil.symm hA ha
  · have hb' : r.banned = false := by simpa using hb
    obtain ⟨c, hc, hr⟩ := h3 hb'
    rw [evalRecord_notBanned_eq r t hb'] at ha ⊢
    exact evalActive_step_allowed r A t c hbound hb' (by omega) hr hA ha

lemma allowedTimes_windowBound (k : String) (calls : List (String × Int))
    (s : Store) (A : List Int) (τ : Int)
    (hsort : (calls.map Prod.snd).Sorted (· ≤ ·))
    (hτ : ∀ c ∈ calls, τ ≤ c.2)
    (hinv : RecInv A τ ((findRecord s k).getD initRecord))
    (hA : WindowBound A) :
    WindowBound (A ++ allowedTimes k s calls) := by
  induction calls generalizing s A τ with
  | nil =>
    rw [allowedTimes_nil, List.append_nil]
    exact hA
  | cons c rest ih =>
    obtain ⟨k', t⟩ := c
    rw [List.map_cons, List.sorted_cons] at hsort
    have hτt : τ ≤ t := hτ (k', t) (List.mem_cons_self _ _)
    have hτ' : ∀ c' ∈ rest, t ≤ c'.2 := fun c' hc' =>
      hsort.1 c'.2 (List.mem_map_of_mem Prod.snd hc')
    rw [allowedTimes_cons]
    have hstore : findRecord (checkRateLimit s k' t).1 k'
        = some (evalRecord ((findRecord s k' ).getD initRecord) t).1 := by
      rw [checkRateLimit_eq]
      exact findRecord_setRecord_self s k' _
    by_cases hk : k' = k
    · subst hk
      by_cases hall : (checkRateLimit s k' t).2.allowed = true
      · rw [if_pos ⟨rfl, hall⟩]
        have hstep := evalRecord_step_allowed ((findRecord s k' ).getD initRecord)
          A τ t hτt hinv hA hall
        have hrec := ih (checkRateLimit s k' t).1 (A ++ [t]) t hsort.2 hτ'
          (by rw [hstore]; exact hstep.1) hstep.2
        rw [← List.append_assoc]
        exact hrec
      · rw [if_neg (fun hcon => hall hcon.2)]
        have hd : (checkRateLimit s k' t).2.allowed = false := by
          simpa using hall
        have hstep := evalRecord_step_denied ((findRecord s k' ).getD initRecord)
          A τ t hτt hinv hd
        simpa using ih (checkRateLimit s k' t).1 A t hsort.2 hτ'
          (by rw [hstore]; exact hstep) hA
    · rw [if_neg (fun hcon => hk hcon.1)]
      have hframe : findRecord (checkRateLimit s k' t).1 k = findRecord s k := by
        rw [checkRateLimit_eq]
        exact findRecord_setRecord_ne s k' k _ (fun hc => hk hc.symm)
      simpa using ih (checkRateLimit s k' t).1 A t hsort.2 hτ'
        (by rw [hframe]; exact recInv_mono A τ t _ hτt hinv) hA

/-- Claim C1: along any trace of `evaluate` calls with non-decreasing
timestamps, starting from the empty store, every client receives at most
`MAX_REQUESTS` Allowed decisions whose timestamps fall inside any rolling
window `(T, T + WINDOW_MS]` — the sliding window admits no burst across a
window boundary. -/
theorem claim_sliding_window (calls : List (String × Int)) (k : String)
    (T : Int) (hsort : (calls.map Prod.snd).Sorted (· ≤ ·)) :
    (allowedTimes k [] calls).countP (inWindow T) ≤ MAX_REQUESTS := by
  cases calls with
  | nil =>
    show (([] : List Int)).countP (inWindow T) ≤ MAX_REQUESTS
    simp
  | cons c rest =>
    have hτ : ∀ c' ∈ c :: rest, c.2 ≤ c'.2 := by
      intro c' hc'
      rcases List.mem_cons.mp hc' with h | h
      · rw [h]
      · rw [List.map_cons, List.sorted_cons] at hsort
        exact hsort.1 c'.2 (List.mem_map_of_mem Prod.snd h)
    have hinv : RecInv [] c.2 ((findRecord [] k).getD initRecord) := by
      refine ⟨by simp, fun _ => by simp, fun _ => ?_⟩
      exact ⟨c.2 - WINDOW_MS, le_refl _, rfl⟩
    have hA : WindowBound [] := fun T' => by simp [WindowBound]
    have h := allowedTimes_windowBound k (c :: rest) [] [] c.2 hsort hτ hinv hA
    simpa using h T

/-- Witness for claim C1 on a concrete sorted two-call trace. -/
theorem claim_sliding_window_witness :
    ((([("a", 100000), ("a", 100001)] : List (String × Int)).map
        Prod.snd).Sorted (· ≤ ·)) ∧
    (allowedTimes "a" [] [("a", 100000), ("a", 100001)]).countP
        (inWindow 99999) ≤ MAX_REQUESTS :=
  ⟨by decide, claim_sliding_window [("a", 100000), ("a", 100001)] "a" 99999
    (by decide)⟩

end RateLimiter
